import Mathlib

/-!
Shallow embedding of src/app.py, a video-splitter application, together
with theorems settling the specification claims about it.

External effects (subprocess invocations, the moviepy library, the
filesystem and the network) are modelled by explicit outcome oracles
passed to the embedded functions; real-valued durations and chunk lengths
are modelled as rationals.
-/

namespace VideoSplitter

/-! ### Output naming (app.py lines 56-62 and 101-108) -/

/-- Python 02d format for a natural number: the decimal digits,
left-padded with zeros to a width of at least two. -/
def pyFormat02 (n : ℕ) : String :=
  let s := Nat.repr n
  if s.length ≥ 2 then s else String.mk (List.replicate (2 - s.length) '0') ++ s

/-- Final path component, `Path(p).name` of Python pathlib: the part of the
path after the last slash. -/
def pathlibName (p : String) : String :=
  String.mk ((p.toList.reverse.takeWhile (fun c => c ≠ '/')).reverse)

/-- Python `Path(p).stem`: the final component without its last suffix. A
suffix starts at the last dot of the name, provided that dot is neither the
first nor the last character of the name. -/
def pathlibStem (p : String) : String :=
  let n := (pathlibName p).toList
  if n.getLast? = some '.' then String.mk n
  else
    match n.reverse.dropWhile (fun c => c ≠ '.') with
    | [] => String.mk n
    | _ :: tail => if tail.isEmpty then String.mk n else String.mk tail.reverse

/-- Output filename for the 0-based segment index i (app.py lines 61 and
107): the Python f-string interpolating input_name, then "_part_", then
i+1 in 02d format, then ".mp4", where `input_name = Path(input_path).stem`. -/
def chunkName (stem : String) (i : ℕ) : String :=
  stem ++ "_part_" ++ pyFormat02 (i + 1) ++ ".mp4"

/-! ### Chunk plan (app.py lines 50, 58-74 and 97, 103-105) -/

/-- Number of chunks, `math.ceil(duration / chunk_duration)` (app.py lines
50 and 97), as the Python int it produces (possibly nonpositive). -/
def num_chunks (duration chunk_duration : ℚ) : ℤ :=
  ⌈duration / chunk_duration⌉

/-- Segment descriptors realized by the ffmpeg loop (app.py lines 58-74):
for i in range(num_chunks), the seek offset is `start_time = i *
chunk_duration` (the -ss argument) and the requested duration is
`chunk_duration` (the -t argument, identical for every segment). -/
def ffmpeg_plan (duration chunk_duration : ℚ) : List (ℚ × ℚ) :=
  (List.range (num_chunks duration chunk_duration).toNat).map
    (fun (i : ℕ) => ((i : ℚ) * chunk_duration, chunk_duration))

/-- Segment descriptors realized by the moviepy loop (app.py lines
103-105): `start_time = i * chunk_duration`, `end_time = min((i + 1) *
chunk_duration, total_duration)`, the segment being the subclip from start
to end, of duration `end_time - start_time`. -/
def moviepy_plan (total_duration chunk_duration : ℚ) : List (ℚ × ℚ) :=
  (List.range (num_chunks total_duration chunk_duration).toNat).map
    (fun (i : ℕ) => ((i : ℚ) * chunk_duration,
      min (((i : ℚ) + 1) * chunk_duration) total_duration - (i : ℚ) * chunk_duration))

/-- Sum of the duration components of a plan. -/
def sumDurations (plan : List (ℚ × ℚ)) : ℚ :=
  (plan.map Prod.snd).sum

/-! ### Split engine (app.py lines 44-85 and 87-131) -/

/-- Outcome of one `subprocess.run(cmd, ..., timeout=300)` ffmpeg
invocation for one segment, together with the `os.path.exists(output_path)`
check that follows it (app.py lines 76-78). -/
inductive FfmpegSegOutcome
  | timeoutExpired
  | completes (returncode : ℤ) (outputExists : Bool)
deriving DecidableEq

/-- Exceptions that escape the embedded functions uncaught. -/
inductive PyError
  | zeroDivisionError
  | timeoutExpired
deriving DecidableEq

/-- Loop body of `split_video_ffmpeg` over the remaining 0-based segment
indices: a non-zero exit or a missing output file merely skips the append;
a `TimeoutExpired` propagates, discarding the local list. -/
def ffmpegLoop (stem : String) (o : ℕ → FfmpegSegOutcome) :
    List ℕ → Except PyError (List String)
  | [] => .ok []
  | i :: rest =>
    match o i with
    | .timeoutExpired => .error .timeoutExpired
    | .completes rc ex =>
      match ffmpegLoop stem o rest with
      | .error e => .error e
      | .ok l => .ok (if rc = 0 ∧ ex then chunkName stem i :: l else l)

/-- Embedding of `split_video_ffmpeg` (app.py lines 44-85). The probed
duration (the result of `get_video_info`) is passed as an optional
rational; per-segment subprocess outcomes are given by the oracle `o`. A
`TimeoutExpired` from `subprocess.run` is caught nowhere in the function
and escapes as an error; `math.ceil` with a zero chunk duration raises
`ZeroDivisionError`. -/
def split_video_ffmpeg (input_path : String) (durationOpt : Option ℚ)
    (chunk_duration : ℚ) (o : ℕ → FfmpegSegOutcome) :
    Except PyError (List String) :=
  match durationOpt with
  | none => .ok []
  | some duration =>
    if duration = 0 then .ok []
    else if chunk_duration = 0 then .error .zeroDivisionError
    else ffmpegLoop (pathlibStem input_path) o
      (List.range (num_chunks duration chunk_duration).toNat)

/-- Outcome of processing one segment in the moviepy loop: either some call
(`subclip` or `write_videofile`) raises, or the write completes and
`os.path.exists(output_path)` reports whether the file exists (app.py
lines 112-117). -/
inductive MoviepySegOutcome
  | raises
  | writes (outputExists : Bool)
deriving DecidableEq

/-- Loop body of `split_video_moviepy` over the remaining segment indices;
the value `none` marks an exception escaping to the enclosing handler. -/
def moviepyLoop (stem : String) (o : ℕ → MoviepySegOutcome) :
    List ℕ → Option (List String)
  | [] => some []
  | i :: rest =>
    match o i with
    | .raises => none
    | .writes ex =>
      match moviepyLoop stem o rest with
      | none => none
      | some l => some (if ex then chunkName stem i :: l else l)

/-- Embedding of `split_video_moviepy` (app.py lines 87-131). The whole
body runs inside one try/except pair: an `ImportError` and any other
exception — including a `ZeroDivisionError` from `math.ceil` and any
per-segment library exception — make the function return the empty list,
discarding every segment already produced. -/
def split_video_moviepy (input_path : String) (importOk : Bool)
    (total_duration chunk_duration : ℚ) (o : ℕ → MoviepySegOutcome) :
    List String :=
  if importOk = false then []
  else if chunk_duration = 0 then []
  else
    match moviepyLoop (pathlibStem input_path) o
        (List.range (num_chunks total_duration chunk_duration).toNat) with
    | none => []
    | some l => l

/-! ### Capability probe (app.py lines 16-23) -/

/-- Outcome of `subprocess.run(["ffmpeg", "-version"], ..., timeout=5)`:
the call raises (tool absent, the 5-second timeout exceeded, or any other
exception) or completes with a return code. -/
inductive ProbeOutcome
  | raises
  | completes (returncode : ℤ)
deriving DecidableEq

/-- Embedding of `check_ffmpeg_availability` (app.py lines 16-23): inside a
bare try/except, it returns `result.returncode == 0`; every exception
yields False. -/
def check_ffmpeg_availability (o : ProbeOutcome) : Bool :=
  match o with
  | .completes rc => decide (rc = 0)
  | .raises => false

/-! ### Download (app.py lines 159-198) -/

/-- One event observed while iterating
`response.iter_content(chunk_size=8192)`: a delivered body chunk (a list
of byte values), or a requests exception raised mid-stream. -/
inductive NetStep
  | chunk (data : List ℕ)
  | raiseErr
deriving DecidableEq

/-- Network behaviour observed by one invocation of `download_from_url`. -/
structure NetworkBehavior where
  /-- Value `none` means `requests.head` raises; `some cl` means it
  succeeds and `cl` is the parsed content-length header, absent when
  `none`. -/
  headOutcome : Option (Option ℕ)
  /-- Whether `requests.get(url, stream=True)` itself succeeds. -/
  getOk : Bool
  /-- Whether `response.raise_for_status()` passes (2xx status). -/
  statusOk : Bool
  /-- The stream of body events. -/
  body : List NetStep
deriving DecidableEq

/-- Terminal class of a `download_from_url` run, mirroring the distinct
code paths of app.py lines 159-198. -/
inductive DlOutcome
  | success
  | tooLarge
  | requestError
deriving DecidableEq

/-- Observable result of `download_from_url`: the returned Python pair —
the output path or None, and the `downloaded` counter — plus the state of
the destination file (`none` when it was never created), whether a GET was
issued, how many per-buffer progress updates ran, and the URL the HTTP
requests used. -/
structure DlResult where
  returnedPath : Bool
  returnedBytes : ℕ
  outcome : DlOutcome
  file : Option (List ℕ)
  getIssued : Bool
  progressUpdates : ℕ
  requestedUrl : String
deriving DecidableEq

/-- Streaming write loop of app.py lines 180-188: returns whether the
iteration finished without raising, the file content written so far, the
`downloaded` counter, and the number of progress updates (guarded by
`if file_size > 0`). Falsy (empty) chunks are skipped by `if chunk:`. -/
def writeLoop (fileSize : ℕ) :
    List NetStep → List ℕ → ℕ → ℕ → (Bool × List ℕ × ℕ × ℕ)
  | [], content, dl, pc => (true, content, dl, pc)
  | .chunk data :: rest, content, dl, pc =>
    if data.isEmpty then writeLoop fileSize rest content dl pc
    else writeLoop fileSize rest (content ++ data) (dl + data.length)
      (if fileSize > 0 then pc + 1 else pc)
  | .raiseErr :: _, content, dl, pc => (false, content, dl, pc)

/-- The size limit of app.py line 168: 5 * 1024 * 1024 * 1024 bytes. -/
def sizeLimit : ℕ := 5 * 1024 * 1024 * 1024

/-- Embedding of `download_from_url` (app.py lines 159-198). The URL is
used verbatim for both the pre-flight HEAD and the GET; `file_size` is
`int(response.headers.get("content-length", 0))`; the destination file is
opened (created empty) only after the pre-flight checks; nothing on any
path removes the destination file. -/
def download_from_url (url : String) (net : NetworkBehavior) : DlResult :=
  match net.headOutcome with
  | none => ⟨false, 0, .requestError, none, false, 0, url⟩
  | some cl =>
    let fileSize := cl.getD 0
    if fileSize > sizeLimit then ⟨false, 0, .tooLarge, none, false, 0, url⟩
    else if net.getOk = false then ⟨false, 0, .requestError, none, true, 0, url⟩
    else if net.statusOk = false then ⟨false, 0, .requestError, none, true, 0, url⟩
    else
      match writeLoop fileSize net.body [] 0 0 with
      | (true, content, dl, pc) => ⟨true, dl, .success, some content, true, pc, url⟩
      | (false, content, _, pc) => ⟨false, 0, .requestError, some content, true, pc, url⟩

/-- Per-segment recording rule of the ffmpeg loop (app.py line 78): the
output path is kept exactly when the tool exited 0 and the output file
exists; a timeout never records anything. -/
def ffmpegKeep (stem : String) (o : ℕ → FfmpegSegOutcome) (i : ℕ) : Option String :=
  match o i with
  | .timeoutExpired => none
  | .completes rc ex => if rc = 0 ∧ ex then some (chunkName stem i) else none

/-- Per-segment recording rule of the moviepy loop (app.py line 116): the
output path is kept exactly when the output file exists after the write. -/
def moviepyKeep (stem : String) (o : ℕ → MoviepySegOutcome) (i : ℕ) : Option String :=
  match o i with
  | .raises => none
  | .writes ex => if ex then some (chunkName stem i) else none

/-- Oracle under which every ffmpeg segment invocation succeeds. -/
def oracleAllGood : ℕ → FfmpegSegOutcome := fun _ => .completes 0 true

/-- Oracle under which every moviepy segment write succeeds. -/
def moviepyAllGood : ℕ → MoviepySegOutcome := fun _ => .writes true

/-- Oracle under which segment 1 (0-based) exceeds the 300-second timeout
and every other segment succeeds. -/
def oracleTimeoutAt1 : ℕ → FfmpegSegOutcome :=
  fun i => if i = 1 then .timeoutExpired else .completes 0 true

/-- Oracle under which segment 1 (0-based) exits with code 1 and every
other segment succeeds. -/
def oracleFailAt1 : ℕ → FfmpegSegOutcome :=
  fun i => if i = 1 then .completes 1 true else .completes 0 true

/-- Oracle under which the moviepy library raises on segment 1 (0-based)
and every other segment write succeeds. -/
def moviepyRaiseAt1 : ℕ → MoviepySegOutcome :=
  fun i => if i = 1 then .raises else .writes true

/-- Network behaviour with a short successful transfer of bytes 1, 2, 3. -/
def netSimple : NetworkBehavior :=
  ⟨some (some 100), true, true, [NetStep.chunk [1, 2, 3]]⟩

/-- Network behaviour advertising a 6 GiB content length. -/
def netBig : NetworkBehavior :=
  ⟨some (some (6 * 1024 * 1024 * 1024)), true, true, [NetStep.chunk [1]]⟩

/-- Network behaviour with no content-length header and two chunks. -/
def netNoLength : NetworkBehavior :=
  ⟨some none, true, true, [NetStep.chunk [5, 6], NetStep.chunk [7]]⟩

/-- Network behaviour that delivers two bytes and then raises mid-stream. -/
def netMidFail : NetworkBehavior :=
  ⟨some (some 100), true, true, [NetStep.chunk [1, 2], NetStep.raiseErr]⟩

/-- Network behaviour whose GET returns a non-2xx status. -/
def netBadStatus : NetworkBehavior :=
  ⟨some (some 100), true, false, [NetStep.chunk [1]]⟩

/-- Bytes accumulated from the chunk events of a body prefix, in order. -/
def bodyBytes : List NetStep → List ℕ
  | [] => []
  | .chunk data :: rest => data ++ bodyBytes rest
  | .raiseErr :: rest => bodyBytes rest

/-- Number of non-empty chunks in a body, which is the number of progress
updates the write loop performs when the advertised size is positive. -/
def progressCount : List NetStep → ℕ
  | [] => 0
  | .chunk data :: rest => (if data.isEmpty then 0 else 1) + progressCount rest
  | .raiseErr :: rest => progressCount rest

end VideoSplitter

namespace VideoSplitter

lemma writeLoop_clean (fileSize : ℕ) (body : List NetStep)
    (h : NetStep.raiseErr ∉ body) (content : List ℕ) (dl pc : ℕ) :
    writeLoop fileSize body content dl pc =
      (true, content ++ bodyBytes body, dl + (bodyBytes body).length,
        pc + (if 0 < fileSize then progressCount body else 0)) := by
  induction body generalizing content dl pc with
  | nil => simp [writeLoop, bodyBytes, progressCount]
  | cons s rest ih =>
    have hrest : NetStep.raiseErr ∉ rest := fun hr => h (List.mem_cons_of_mem _ hr)
    cases s with
    | raiseErr => exact absurd (List.mem_cons_self _ _) h
    | chunk data =>
      by_cases hd : data.isEmpty
      · have hdata : data = [] := List.isEmpty_iff.mp hd
        simp [writeLoop, hd, bodyBytes, progressCount, ih hrest, hdata]
      · simp only [writeLoop, hd, if_false, ih hrest, bodyBytes, progressCount]
        by_cases hf : 0 < fileSize <;> simp [hf] <;> omega

lemma writeLoop_fail (fileSize : ℕ) (pre suf : List NetStep)
    (h : NetStep.raiseErr ∉ pre) (content : List ℕ) (dl pc : ℕ) :
    (writeLoop fileSize (pre ++ NetStep.raiseErr :: suf) content dl pc).1 = false ∧
    (writeLoop fileSize (pre ++ NetStep.raiseErr :: suf) content dl pc).2.1 =
      content ++ bodyBytes pre := by
  induction pre generalizing content dl pc with
  | nil => simp [writeLoop, bodyBytes]
  | cons s rest ih =>
    have hrest : NetStep.raiseErr ∉ rest := fun hr => h (List.mem_cons_of_mem _ hr)
    cases s with
    | raiseErr => exact absurd (List.mem_cons_self _ _) h
    | chunk data =>
      by_cases hd : data.isEmpty
      · have hdata : data = [] := List.isEmpty_iff.mp hd
        simpa [writeLoop, hd, bodyBytes, hdata] using ih hrest content dl pc
      · simpa [writeLoop, hd, bodyBytes] using
          ih hrest (content ++ data) (dl + data.length)
            (if 0 < fileSize then pc + 1 else pc)

/-- C9: the capability probe is a total boolean function on invocation
outcomes; it returns true exactly when the ffmpeg version invocation
completes with exit code 0 within its 5-second timeout, and false in every
other case (the tool raising, including absence and timeout), never
propagating an exception. -/
theorem probe_total_boolean (o : ProbeOutcome) :
    check_ffmpeg_availability o = true ↔ o = ProbeOutcome.completes 0 := by
  cases o with
  | raises => simp [check_ffmpeg_availability]
  | completes rc => simp [check_ffmpeg_availability]

/-- C4 counterexample: the downloader performs no Drive-link handling at
all. A Google-Drive share locator is requested verbatim (no identifier is
extracted and no export endpoint is constructed), and a locator matching
neither Drive URL shape does not fail before bytes are fetched — it is
downloaded successfully. -/
theorem drive_extraction_counterexample :
    (download_from_url "https://drive.google.com/file/d/ABC123/view?usp=sharing"
        netSimple).requestedUrl =
      "https://drive.google.com/file/d/ABC123/view?usp=sharing" ∧
    (download_from_url "https://example.com/video.mp4" netSimple).outcome =
      DlOutcome.success ∧
    (download_from_url "https://example.com/video.mp4" netSimple).getIssued = true ∧
    (download_from_url "https://example.com/video.mp4" netSimple).file =
      some [1, 2, 3] := by
  refine ⟨rfl, ?_, ?_, ?_⟩ <;> rfl

/-- C4 amended: the acquirer extracts nothing from the locator: the URL is
passed to the HTTP layer verbatim, and the observable transfer behaviour
(outcome, destination file, byte counts, returned path flag) is entirely
independent of the shape of the locator, so no locator class fails early
with an unrecognized-share-link error. -/
theorem download_url_opaque (u v : String) (net : NetworkBehavior) :
    (download_from_url u net).requestedUrl = u ∧
    (download_from_url u net).outcome = (download_from_url v net).outcome ∧
    (download_from_url u net).file = (download_from_url v net).file ∧
    (download_from_url u net).returnedBytes = (download_from_url v net).returnedBytes ∧
    (download_from_url u net).returnedPath = (download_from_url v net).returnedPath ∧
    (download_from_url u net).getIssued = (download_from_url v net).getIssued := by
  obtain ⟨ho, hg, hs, hb⟩ := net
  unfold download_from_url
  cases ho with
  | none => simp
  | some cl =>
    simp only
    split
    · simp
    · split
      · simp
      · split
        · simp
        · rcases hw : writeLoop (cl.getD 0) hb [] 0 0 with ⟨ok, content, dl, pc⟩
          cases ok <;> simp

/-- C6: when the advertised content length from the pre-flight request
exceeds the 5 GiB limit, the download fails on the tooLarge path before
any GET is issued; no bytes are returned and the destination file is never
created. -/
theorem download_too_large_fails_early (url : String) (net : NetworkBehavior)
    (cl : ℕ) (hhead : net.headOutcome = some (some cl)) (hcl : cl > sizeLimit) :
    (download_from_url url net).outcome = DlOutcome.tooLarge ∧
    (download_from_url url net).returnedPath = false ∧
    (download_from_url url net).returnedBytes = 0 ∧
    (download_from_url url net).file = none ∧
    (download_from_url url net).getIssued = false := by
  simp [download_from_url, hhead, hcl]

/-- C6 witness: a 6 GiB advertised length makes the concrete download fail
with tooLarge, leaving no destination file and issuing no GET. -/
theorem download_too_large_witness :
    (download_from_url "https://example.com/big.mp4" netBig).outcome =
      DlOutcome.tooLarge ∧
    (download_from_url "https://example.com/big.mp4" netBig).file = none ∧
    (download_from_url "https://example.com/big.mp4" netBig).getIssued = false := by
  have h := download_too_large_fails_early "https://example.com/big.mp4" netBig
    (6 * 1024 * 1024 * 1024) rfl (by norm_num [sizeLimit])
  exact ⟨h.1, h.2.2.2.1, h.2.2.2.2⟩

/-- C10: with no content-length header the downloader takes the total size
to be 0: the size limit can never trip (the outcome is never tooLarge), and
on a clean transfer the whole body is written, the returned byte count is
the total length of the body chunks, and no per-buffer progress update is
emitted. -/
theorem download_no_content_length (url : String) (net : NetworkBehavior)
    (hhead : net.headOutcome = some none) :
    (download_from_url url net).outcome ≠ DlOutcome.tooLarge ∧
    (net.getOk = true → net.statusOk = true → NetStep.raiseErr ∉ net.body →
      (download_from_url url net).outcome = DlOutcome.success ∧
      (download_from_url url net).returnedPath = true ∧
      (download_from_url url net).returnedBytes = (bodyBytes net.body).length ∧
      (download_from_url url net).file = some (bodyBytes net.body) ∧
      (download_from_url url net).progressUpdates = 0) := by
  constructor
  · simp only [download_from_url, hhead, Option.getD]
    have hlim : ¬ (0 > sizeLimit) := by simp
    simp only [hlim, if_false]
    split
    · simp
    · split
      · simp
      · rcases hw : writeLoop 0 net.body [] 0 0 with ⟨ok, content, dl, pc⟩
        cases ok <;> simp [hw]
  · intro hget hstatus hclean
    have hw := writeLoop_clean 0 net.body hclean [] 0 0
    simp [download_from_url, hhead, hget, hstatus, hw]

/-- C10 witness: a concrete download with no content-length header succeeds
in full, reports 3 bytes and performs no progress updates. -/
theorem download_no_content_length_witness :
    (download_from_url "u" netNoLength).outcome ≠ DlOutcome.tooLarge ∧
    (download_from_url "u" netNoLength).outcome = DlOutcome.success ∧
    (download_from_url "u" netNoLength).returnedBytes =
      (bodyBytes netNoLength.body).length ∧
    (download_from_url "u" netNoLength).file = some (bodyBytes netNoLength.body) ∧
    (download_from_url "u" netNoLength).progressUpdates = 0 := by
  have h := download_no_content_length "u" netNoLength rfl
  have h2 := h.2 rfl rfl (by decide)
  exact ⟨h.1, h2.1, h2.2.2.1, h2.2.2.2.1, h2.2.2.2.2⟩

/-- C3 counterexample: a connection error raised mid-stream makes the
acquisition fail (None is returned), but the partially written destination
file is left on disk with the two bytes received before the failure — it
is neither removed nor empty. -/
theorem partial_file_retained_counterexample :
    (download_from_url "https://example.com/v.mp4" netMidFail).returnedPath = false ∧
    (download_from_url "https://example.com/v.mp4" netMidFail).file = some [1, 2] ∧
    (download_from_url "https://example.com/v.mp4" netMidFail).file ≠ none ∧
    (download_from_url "https://example.com/v.mp4" netMidFail).file ≠ some [] := by
  refine ⟨rfl, rfl, ?_, ?_⟩ <;> decide

/-- C3 amended: every transfer failure fails the whole acquisition — on
any non-success run the function returns None and reports 0 bytes; a HEAD
connection error, a GET connection error and a non-2xx status each fail
with the destination file never created; but nothing ever removes the
destination file, so after a mid-stream error the acquisition fails while
the destination retains exactly the bytes received before the failure. -/
theorem transfer_failure_keeps_partial_file :
    (∀ (url : String) (net : NetworkBehavior),
      (download_from_url url net).outcome ≠ DlOutcome.success →
      (download_from_url url net).returnedPath = false ∧
      (download_from_url url net).returnedBytes = 0) ∧
    (∀ (url : String) (net : NetworkBehavior), net.headOutcome = none →
      (download_from_url url net).outcome = DlOutcome.requestError ∧
      (download_from_url url net).file = none) ∧
    (∀ (url : String) (net : NetworkBehavior) (cl : Option ℕ),
      net.headOutcome = some cl → ¬ (cl.getD 0 > sizeLimit) →
      net.getOk = false →
      (download_from_url url net).outcome = DlOutcome.requestError ∧
      (download_from_url url net).file = none) ∧
    (∀ (url : String) (net : NetworkBehavior) (cl : Option ℕ),
      net.headOutcome = some cl → ¬ (cl.getD 0 > sizeLimit) →
      net.getOk = true → net.statusOk = false →
      (download_from_url url net).outcome = DlOutcome.requestError ∧
      (download_from_url url net).file = none) ∧
    (∀ (url : String) (net : NetworkBehavior) (cl : Option ℕ)
      (pre suf : List NetStep),
      net.headOutcome = some cl → ¬ (cl.getD 0 > sizeLimit) →
      net.getOk = true → net.statusOk = true →
      net.body = pre ++ NetStep.raiseErr :: suf → NetStep.raiseErr ∉ pre →
      (download_from_url url net).outcome = DlOutcome.requestError ∧
      (download_from_url url net).file = some (bodyBytes pre)) := by
  refine ⟨?_, ?_, ?_, ?_, ?_⟩
  · intro url net hne
    obtain ⟨ho, hg, hs, hb⟩ := net
    simp only [download_from_url] at hne ⊢
    cases ho with
    | none => simp
    | some cl =>
      by_cases h1 : cl.getD 0 > sizeLimit
      · simp [h1]
      · cases hg
        · simp [h1]
        · cases hs
          · simp [h1]
          · rcases hw : writeLoop (cl.getD 0) hb [] 0 0 with ⟨ok, content, dl, pc⟩
            cases ok
            · simp [h1, hw]
            · exfalso
              apply hne
              simp [h1, hw]
  · intro url net hhead
    simp [download_from_url, hhead]
  · intro url net cl hhead hsize hget
    simp [download_from_url, hhead, hsize, hget]
  · intro url net cl hhead hsize hget hstatus
    simp [download_from_url, hhead, hsize, hget, hstatus]
  · intro url net cl pre suf hhead hsize hget hstatus hbody hpre
    have hw := writeLoop_fail (cl.getD 0) pre suf hpre [] 0 0
    rcases heq : writeLoop (cl.getD 0) (pre ++ NetStep.raiseErr :: suf) [] 0 0 with
      ⟨ok, content, dl, pc⟩
    rw [heq] at hw
    simp only at hw
    obtain ⟨hok, hcontent⟩ := hw
    subst hok
    simp [download_from_url, hhead, hsize, hget, hstatus, hbody, heq, hcontent]

/-- C3 amended witness: the concrete mid-stream failure returns None with 0
bytes while the destination file retains the two bytes written before the
error, and a concrete non-2xx response fails with no file created. -/
theorem transfer_failure_keeps_partial_file_witness :
    ((download_from_url "u" netMidFail).returnedPath = false ∧
      (download_from_url "u" netMidFail).returnedBytes = 0) ∧
    (download_from_url "u" netBadStatus).file = none ∧
    (download_from_url "u" netMidFail).file =
      some (bodyBytes [NetStep.chunk [1, 2]]) := by
  refine ⟨transfer_failure_keeps_partial_file.1 "u" netMidFail (by decide), ?_, ?_⟩
  · exact (transfer_failure_keeps_partial_file.2.2.2.1 "u" netBadStatus (some 100)
      rfl (by decide) rfl rfl).2
  · exact (transfer_failure_keeps_partial_file.2.2.2.2 "u" netMidFail (some 100)
      [NetStep.chunk [1, 2]] [] rfl (by decide) rfl rfl rfl (by decide)).2

lemma num_chunks_pos {d c : ℚ} (hd : 0 < d) (hc : 0 < c) :
    0 < num_chunks d c :=
  Int.ceil_pos.mpr (div_pos hd hc)

lemma start_lt_duration {d c : ℚ} (hc : 0 < c) {i : ℕ}
    (hi : i < (num_chunks d c).toNat) : (i : ℚ) * c < d := by
  have h1 : (i : ℤ) < num_chunks d c := Int.lt_toNat.mp hi
  have h2 : ((i : ℤ) : ℚ) < d / c := Int.lt_ceil.mp h1
  rw [Int.cast_natCast] at h2
  exact (lt_div_iff₀ hc).mp h2

lemma duration_le_chunks_mul {d c : ℚ} (hd : 0 < d) (hc : 0 < c) :
    d ≤ (((num_chunks d c).toNat : ℚ)) * c := by
  have h0 : ((num_chunks d c).toNat : ℤ) = num_chunks d c :=
    Int.toNat_of_nonneg (num_chunks_pos hd hc).le
  have h1 : d / c ≤ ((num_chunks d c : ℤ) : ℚ) := Int.le_ceil _
  rw [← h0] at h1
  rw [Int.cast_natCast] at h1
  exact (div_le_iff₀ hc).mp h1

lemma min_duration_shift (i c d : ℚ) :
    min ((i + 1) * c) d - i * c = min c (d - i * c) := by
  rw [← min_sub_sub_right]
  congr 1
  ring

lemma list_range_map_sum (f : ℕ → ℚ) (n : ℕ) :
    ((List.range n).map f).sum = ∑ i in Finset.range n, f i := by
  induction n with
  | zero => simp
  | succ m ih => simp [List.range_succ, Finset.sum_range_succ, ih]

lemma telescope_min (c d : ℚ) (n : ℕ) :
    ∑ i in Finset.range n,
        (min (((i : ℚ) + 1) * c) d - min ((i : ℚ) * c) d) =
      min ((n : ℚ) * c) d - min 0 d := by
  induction n with
  | zero => simp
  | succ m ih =>
    rw [Finset.sum_range_succ, ih]
    push_cast
    ring

end VideoSplitter

namespace VideoSplitter

/-- C1 amended: for all positive totalDuration and chunkLength, both loops
realize ceil(totalDuration / chunkLength) segments with segment i starting
at i * chunkLength, contiguous and non-overlapping; in the moviepy
(re-encode) loop segment i has duration min(chunkLength, totalDuration -
start) and the durations sum exactly (hence within 1e-6) to totalDuration;
in the ffmpeg (stream-copy) loop every segment, the last included, is
requested with duration chunkLength. -/
theorem chunk_plan_correct (d c : ℚ) (hd : 0 < d) (hc : 0 < c) :
    (moviepy_plan d c).length = (num_chunks d c).toNat ∧
    (ffmpeg_plan d c).length = (num_chunks d c).toNat ∧
    (((num_chunks d c).toNat : ℤ) = ⌈d / c⌉) ∧
    (∀ i, i < (num_chunks d c).toNat →
      (moviepy_plan d c)[i]? = some ((i : ℚ) * c, min c (d - (i : ℚ) * c))) ∧
    (∀ i, i < (num_chunks d c).toNat →
      (ffmpeg_plan d c)[i]? = some ((i : ℚ) * c, c)) ∧
    sumDurations (moviepy_plan d c) = d ∧
    |sumDurations (moviepy_plan d c) - d| ≤ 1 / 1000000 ∧
    (∀ i s t, (moviepy_plan d c)[i]? = some s → (moviepy_plan d c)[i + 1]? = some t →
      t.1 = s.1 + s.2) ∧
    (∀ i s t, (ffmpeg_plan d c)[i]? = some s → (ffmpeg_plan d c)[i + 1]? = some t →
      t.1 = s.1 + s.2) := by
  set n := (num_chunks d c).toNat with hn
  have hlenM : (moviepy_plan d c).length = n := by
    simp only [moviepy_plan, List.length_map, List.length_range, hn]
  have hlenF : (ffmpeg_plan d c).length = n := by
    simp only [ffmpeg_plan, List.length_map, List.length_range, hn]
  have hgetM : ∀ i, i < n →
      (moviepy_plan d c)[i]? = some ((i : ℚ) * c, min c (d - (i : ℚ) * c)) := by
    intro i hi
    simp only [moviepy_plan, List.getElem?_map, List.getElem?_range hi,
      Option.map_some']
    rw [min_duration_shift]
  have hgetF : ∀ i, i < n → (ffmpeg_plan d c)[i]? = some ((i : ℚ) * c, c) := by
    intro i hi
    simp only [ffmpeg_plan, List.getElem?_map, List.getElem?_range hi,
      Option.map_some']
  have hsum : sumDurations (moviepy_plan d c) = d := by
    have hrw : sumDurations (moviepy_plan d c) =
        ∑ i in Finset.range n,
          (min (((i : ℚ) + 1) * c) d - (i : ℚ) * c) := by
      simp only [sumDurations, moviepy_plan, List.map_map]
      exact list_range_map_sum _ n
    rw [hrw]
    have hterm : ∀ i ∈ Finset.range n,
        min (((i : ℚ) + 1) * c) d - (i : ℚ) * c =
          min (((i : ℚ) + 1) * c) d - min ((i : ℚ) * c) d := by
      intro i hi
      have hlt : (i : ℚ) * c < d := start_lt_duration hc (Finset.mem_range.mp hi)
      rw [min_eq_left hlt.le]
    rw [Finset.sum_congr rfl hterm, telescope_min]
    have hnc : d ≤ ((n : ℚ)) * c := duration_le_chunks_mul hd hc
    rw [min_eq_right hnc, min_eq_left hd.le, sub_zero]
  have hcontigM : ∀ i s t, (moviepy_plan d c)[i]? = some s →
      (moviepy_plan d c)[i + 1]? = some t → t.1 = s.1 + s.2 := by
    intro i s t hs ht
    have hi1 : i + 1 < n := by
      have h := ht
      rw [List.getElem?_eq_some] at h
      exact hlenM ▸ h.1
    have hi : i < n := Nat.lt_of_succ_lt hi1
    rw [hgetM i hi] at hs
    rw [hgetM (i + 1) hi1] at ht
    obtain rfl : ((i : ℚ) * c, min c (d - (i : ℚ) * c)) = s := Option.some_inj.mp hs
    obtain rfl : (((i + 1 : ℕ) : ℚ) * c, min c (d - ((i + 1 : ℕ) : ℚ) * c)) = t :=
      Option.some_inj.mp ht
    have hlt1 : ((i : ℚ) + 1) * c < d := by
      have h := start_lt_duration hc (d := d) (i := i + 1) hi1
      push_cast at h
      exact h
    have hexp : ((i : ℚ) + 1) * c = (i : ℚ) * c + c := by ring
    have hmin : min c (d - (i : ℚ) * c) = c := min_eq_left (by linarith)
    simp only [hmin]
    push_cast
    ring
  have hcontigF : ∀ i s t, (ffmpeg_plan d c)[i]? = some s →
      (ffmpeg_plan d c)[i + 1]? = some t → t.1 = s.1 + s.2 := by
    intro i s t hs ht
    have hi1 : i + 1 < n := by
      have h := ht
      rw [List.getElem?_eq_some] at h
      exact hlenF ▸ h.1
    have hi : i < n := Nat.lt_of_succ_lt hi1
    rw [hgetF i hi] at hs
    rw [hgetF (i + 1) hi1] at ht
    obtain rfl : ((i : ℚ) * c, c) = s := Option.some_inj.mp hs
    obtain rfl : (((i + 1 : ℕ) : ℚ) * c, c) = t := Option.some_inj.mp ht
    push_cast
    ring
  exact ⟨hlenM, hlenF, Int.toNat_of_nonneg (num_chunks_pos hd hc).le, hgetM, hgetF,
    hsum, by rw [hsum]; simp, hcontigM, hcontigF⟩

lemma ffmpegLoop_ok_of_no_timeout (stem : String) (o : ℕ → FfmpegSegOutcome)
    (l : List ℕ) (h : ∀ i ∈ l, o i ≠ FfmpegSegOutcome.timeoutExpired) :
    ffmpegLoop stem o l = Except.ok (l.filterMap (ffmpegKeep stem o)) := by
  induction l with
  | nil => rfl
  | cons i rest ih =>
    have hi := h i (List.mem_cons_self _ _)
    have hrest : ∀ j ∈ rest, o j ≠ FfmpegSegOutcome.timeoutExpired :=
      fun j hj => h j (List.mem_cons_of_mem _ hj)
    cases ho : o i with
    | timeoutExpired => exact absurd ho hi
    | completes rc ex =>
      simp only [ffmpegLoop, ho, ih hrest, List.filterMap_cons, ffmpegKeep]
      split <;> simp

lemma ffmpegLoop_error_of_timeout (stem : String) (o : ℕ → FfmpegSegOutcome)
    (l : List ℕ) (h : ∃ i ∈ l, o i = FfmpegSegOutcome.timeoutExpired) :
    ffmpegLoop stem o l = Except.error PyError.timeoutExpired := by
  induction l with
  | nil => simp at h
  | cons i rest ih =>
    rcases h with ⟨j, hj, hoj⟩
    rcases List.mem_cons.mp hj with rfl | hj2
    · simp [ffmpegLoop, hoj]
    · cases ho : o i with
      | timeoutExpired => simp [ffmpegLoop, ho]
      | completes rc ex => simp [ffmpegLoop, ho, ih ⟨j, hj2, hoj⟩]

lemma ffmpegLoop_mem (stem : String) (o : ℕ → FfmpegSegOutcome) :
    ∀ (l : List ℕ) (res : List String), ffmpegLoop stem o l = Except.ok res →
      ∀ p ∈ res, ∃ i ∈ l, o i = FfmpegSegOutcome.completes 0 true ∧
        p = chunkName stem i := by
  intro l
  induction l with
  | nil =>
    intro res h p hp
    simp only [ffmpegLoop] at h
    obtain rfl : ([] : List String) = res := Except.ok.inj h
    simp at hp
  | cons i rest ih =>
    intro res h p hp
    cases ho : o i with
    | timeoutExpired => simp [ffmpegLoop, ho] at h
    | completes rc ex =>
      simp only [ffmpegLoop, ho] at h
      rcases hrec : ffmpegLoop stem o rest with e | l2
      · rw [hrec] at h; simp at h
      · rw [hrec] at h
        simp only at h
        obtain rfl := Except.ok.inj h
        by_cases hcond : rc = 0 ∧ ex
        · rw [if_pos hcond] at hp
          rcases List.mem_cons.mp hp with rfl | hp2
          · exact ⟨i, List.mem_cons_self _ _, by
              rw [ho, hcond.1]
              have hex : ex = true := hcond.2
              rw [hex], rfl⟩
          · obtain ⟨j, hj, hoj, hpj⟩ := ih l2 hrec p hp2
            exact ⟨j, List.mem_cons_of_mem _ hj, hoj, hpj⟩
        · rw [if_neg hcond] at hp
          obtain ⟨j, hj, hoj, hpj⟩ := ih l2 hrec p hp
          exact ⟨j, List.mem_cons_of_mem _ hj, hoj, hpj⟩

lemma moviepyLoop_some_of_no_raise (stem : String) (o : ℕ → MoviepySegOutcome)
    (l : List ℕ) (h : ∀ i ∈ l, o i ≠ MoviepySegOutcome.raises) :
    moviepyLoop stem o l = some (l.filterMap (moviepyKeep stem o)) := by
  induction l with
  | nil => rfl
  | cons i rest ih =>
    have hi := h i (List.mem_cons_self _ _)
    have hrest : ∀ j ∈ rest, o j ≠ MoviepySegOutcome.raises :=
      fun j hj => h j (List.mem_cons_of_mem _ hj)
    cases ho : o i with
    | raises => exact absurd ho hi
    | writes ex =>
      simp only [moviepyLoop, ho, ih hrest, List.filterMap_cons, moviepyKeep]
      split <;> simp

lemma moviepyLoop_none_of_raise (stem : String) (o : ℕ → MoviepySegOutcome)
    (l : List ℕ) (h : ∃ i ∈ l, o i = MoviepySegOutcome.raises) :
    moviepyLoop stem o l = none := by
  induction l with
  | nil => simp at h
  | cons i rest ih =>
    rcases h with ⟨j, hj, hoj⟩
    rcases List.mem_cons.mp hj with rfl | hj2
    · simp [moviepyLoop, hoj]
    · cases ho : o i with
      | raises => simp [moviepyLoop, ho]
      | writes ex => simp [moviepyLoop, ho, ih ⟨j, hj2, hoj⟩]

lemma moviepyLoop_mem (stem : String) (o : ℕ → MoviepySegOutcome) :
    ∀ (l : List ℕ) (res : List String), moviepyLoop stem o l = some res →
      ∀ p ∈ res, ∃ i ∈ l, o i = MoviepySegOutcome.writes true ∧
        p = chunkName stem i := by
  intro l
  induction l with
  | nil =>
    intro res h p hp
    simp only [moviepyLoop] at h
    obtain rfl : ([] : List String) = res := Option.some_inj.mp h
    simp at hp
  | cons i rest ih =>
    intro res h p hp
    cases ho : o i with
    | raises => simp [moviepyLoop, ho] at h
    | writes ex =>
      simp only [moviepyLoop, ho] at h
      rcases hrec : moviepyLoop stem o rest with _ | l2
      · rw [hrec] at h; simp at h
      · rw [hrec] at h
        simp only at h
        obtain rfl := Option.some_inj.mp h
        by_cases hcond : ex = true
        · rw [if_pos hcond] at hp
          rcases List.mem_cons.mp hp with rfl | hp2
          · exact ⟨i, List.mem_cons_self _ _, by rw [ho, hcond], rfl⟩
          · obtain ⟨j, hj, hoj, hpj⟩ := ih l2 hrec p hp2
            exact ⟨j, List.mem_cons_of_mem _ hj, hoj, hpj⟩
        · rw [if_neg (by simpa using hcond)] at hp
          obtain ⟨j, hj, hoj, hpj⟩ := ih l2 hrec p hp
          exact ⟨j, List.mem_cons_of_mem _ hj, hoj, hpj⟩

lemma two_le_pyFormat02_length (n : ℕ) : 2 ≤ (pyFormat02 n).length := by
  simp only [pyFormat02]
  split
  · assumption
  · rename_i h
    rw [String.length_append, String.length_mk, List.length_replicate]
    omega

lemma split_video_ffmpeg_ok_mem (path : String) (dOpt : Option ℚ) (c : ℚ)
    (o : ℕ → FfmpegSegOutcome) (l : List String)
    (h : split_video_ffmpeg path dOpt c o = Except.ok l) :
    ∀ p ∈ l, ∃ i, o i = FfmpegSegOutcome.completes 0 true ∧
      p = chunkName (pathlibStem path) i := by
  intro p hp
  cases dOpt with
  | none =>
    simp only [split_video_ffmpeg] at h
    obtain rfl : ([] : List String) = l := Except.ok.inj h
    simp at hp
  | some d =>
    simp only [split_video_ffmpeg] at h
    by_cases hd0 : d = 0
    · rw [if_pos hd0] at h
      obtain rfl : ([] : List String) = l := Except.ok.inj h
      simp at hp
    · rw [if_neg hd0] at h
      by_cases hc0 : c = 0
      · rw [if_pos hc0] at h
        cases h
      · rw [if_neg hc0] at h
        obtain ⟨i, _, hoi, hpi⟩ := ffmpegLoop_mem _ o _ l h p hp
        exact ⟨i, hoi, hpi⟩

lemma split_video_moviepy_mem (path : String) (imp : Bool) (d c : ℚ)
    (o : ℕ → MoviepySegOutcome) :
    ∀ p ∈ split_video_moviepy path imp d c o,
      ∃ i, o i = MoviepySegOutcome.writes true ∧
        p = chunkName (pathlibStem path) i := by
  intro p hp
  simp only [split_video_moviepy] at hp
  by_cases himp : imp = false
  · rw [if_pos himp] at hp; simp at hp
  · rw [if_neg himp] at hp
    by_cases hc0 : c = 0
    · rw [if_pos hc0] at hp; simp at hp
    · rw [if_neg hc0] at hp
      rcases hrec : moviepyLoop (pathlibStem path) o
          (List.range (num_chunks d c).toNat) with _ | l2
      · rw [hrec] at hp; simp at hp
      · rw [hrec] at hp
        simp only at hp
        obtain ⟨i, _, hoi, hpi⟩ := moviepyLoop_mem _ o _ l2 hrec p hp
        exact ⟨i, hoi, hpi⟩

end VideoSplitter

namespace VideoSplitter

/-- C1 witness: at totalDuration 10 and chunkLength 4, the moviepy plan has
the ceiling-count length and its durations sum exactly to 10. -/
theorem chunk_plan_correct_witness :
    (0 : ℚ) < 10 ∧ (0 : ℚ) < 4 ∧
    (moviepy_plan 10 4).length = (num_chunks 10 4).toNat ∧
    sumDurations (moviepy_plan 10 4) = 10 :=
  ⟨by norm_num, by norm_num,
    (chunk_plan_correct 10 4 (by norm_num) (by norm_num)).1,
    (chunk_plan_correct 10 4 (by norm_num) (by norm_num)).2.2.2.2.2.1⟩

/-- C1 counterexample: at totalDuration 10 and chunkLength 4 the ffmpeg
(stream-copy) loop requests duration 4 for the final segment starting at 8,
not min(4, 10 - 8) = 2, and the requested durations sum to 12, missing the
1e-6 tolerance around 10; so the claimed per-segment duration formula and
sum property do not hold in both splitting functions. -/
theorem ffmpeg_plan_counterexample :
    ffmpeg_plan 10 4 = [(0, 4), (4, 4), (8, 4)] ∧
    sumDurations (ffmpeg_plan 10 4) = 12 ∧
    ¬ (|sumDurations (ffmpeg_plan 10 4) - 10| ≤ 1 / 1000000) ∧
    (4 : ℚ) ≠ min 4 (10 - 8) := by
  have h3 : num_chunks (10 : ℚ) 4 = 3 := by
    norm_num [num_chunks, Int.ceil_eq_iff]
  have hplan : ffmpeg_plan 10 4 = [(0, 4), (4, 4), (8, 4)] := by
    simp [ffmpeg_plan, h3, List.range_succ]
    norm_num
  refine ⟨hplan, ?_, ?_, by norm_num⟩
  · rw [hplan]
    simp [sumDurations]
    norm_num
  · rw [hplan]
    simp [sumDurations]
    norm_num

/-- C5 counterexample: there is no PlanError. A probed duration of 0 makes
the stream-copy splitter return an ordinary empty success value, not a
failure; a negative chunk length likewise returns an empty success; and a
zero chunk length raises an uncaught ZeroDivisionError rather than any
structured invalid-chunk-length failure. -/
theorem plan_error_counterexample :
    split_video_ffmpeg "v.mp4" (some 0) 1500 oracleAllGood = Except.ok [] ∧
    split_video_ffmpeg "v.mp4" (some 10) (-4) oracleAllGood = Except.ok [] ∧
    split_video_ffmpeg "v.mp4" (some 10) 0 oracleAllGood =
      Except.error PyError.zeroDivisionError := by
  refine ⟨?_, ?_, ?_⟩
  · simp [split_video_ffmpeg]
  · have hneg : num_chunks (10 : ℚ) (-4) = -2 := by
      norm_num [num_chunks, Int.ceil_eq_iff]
    simp only [split_video_ffmpeg]
    rw [if_neg (by norm_num), if_neg (by norm_num), hneg]
    rfl
  · simp only [split_video_ffmpeg]
    rw [if_neg (by norm_num)]
    simp

/-- C5 amended: a nonpositive probed duration (with positive chunk length)
and a negative chunk length (with positive duration) both yield an
ordinary empty result from either splitter, with no error value of any
kind; a zero chunk length with positive duration raises ZeroDivisionError
uncaught in the stream-copy splitter and yields the empty list in the
re-encode splitter, whose blanket exception handler swallows it. -/
theorem invalid_inputs_amended :
    (∀ (path : String) (d c : ℚ) (o : ℕ → FfmpegSegOutcome), d ≤ 0 → 0 < c →
      split_video_ffmpeg path (some d) c o = Except.ok []) ∧
    (∀ (path : String) (imp : Bool) (d c : ℚ) (o : ℕ → MoviepySegOutcome),
      d ≤ 0 → 0 < c → split_video_moviepy path imp d c o = []) ∧
    (∀ (path : String) (d c : ℚ) (o : ℕ → FfmpegSegOutcome), 0 < d → c < 0 →
      split_video_ffmpeg path (some d) c o = Except.ok []) ∧
    (∀ (path : String) (imp : Bool) (d c : ℚ) (o : ℕ → MoviepySegOutcome),
      0 < d → c < 0 → split_video_moviepy path imp d c o = []) ∧
    (∀ (path : String) (d : ℚ) (o : ℕ → FfmpegSegOutcome), 0 < d →
      split_video_ffmpeg path (some d) 0 o =
        Except.error PyError.zeroDivisionError) ∧
    (∀ (path : String) (imp : Bool) (d : ℚ) (o : ℕ → MoviepySegOutcome),
      split_video_moviepy path imp d 0 o = []) := by
  have hchunks_np : ∀ (d c : ℚ), d / c ≤ 0 → (num_chunks d c).toNat = 0 := by
    intro d c hdc
    apply Int.toNat_eq_zero.mpr
    apply Int.ceil_le.mpr
    exact_mod_cast hdc
  refine ⟨?_, ?_, ?_, ?_, ?_, ?_⟩
  · intro path d c o hd hc
    by_cases hd0 : d = 0
    · simp [split_video_ffmpeg, hd0]
    · have hn := hchunks_np d c (div_nonpos_iff.mpr (Or.inr ⟨hd, hc.le⟩))
      simp only [split_video_ffmpeg]
      rw [if_neg hd0, if_neg (ne_of_gt hc), hn]
      rfl
  · intro path imp d c o hd hc
    have hn := hchunks_np d c (div_nonpos_iff.mpr (Or.inr ⟨hd, hc.le⟩))
    simp only [split_video_moviepy]
    rw [hn]
    by_cases himp : imp = false
    · rw [if_pos himp]
    · rw [if_neg himp, if_neg (ne_of_gt hc)]
      rfl
  · intro path d c o hd hc
    have hn := hchunks_np d c (div_nonpos_iff.mpr (Or.inl ⟨hd.le, hc.le⟩))
    simp only [split_video_ffmpeg]
    rw [if_neg (ne_of_gt hd), if_neg (ne_of_lt hc), hn]
    rfl
  · intro path imp d c o hd hc
    have hn := hchunks_np d c (div_nonpos_iff.mpr (Or.inl ⟨hd.le, hc.le⟩))
    simp only [split_video_moviepy]
    rw [hn]
    by_cases himp : imp = false
    · rw [if_pos himp]
    · rw [if_neg himp, if_neg (ne_of_lt hc)]
      rfl
  · intro path d o hd
    simp only [split_video_ffmpeg]
    rw [if_neg (ne_of_gt hd)]
    simp
  · intro path imp d o
    simp only [split_video_moviepy]
    by_cases himp : imp = false
    · rw [if_pos himp]
    · rw [if_neg himp]
      simp

/-- C5 amended witness: concrete invalid inputs produce the empty result or
the uncaught division error, as the amended statement says. -/
theorem invalid_inputs_witness :
    split_video_ffmpeg "v.mp4" (some (-5)) 10 oracleAllGood = Except.ok [] ∧
    split_video_moviepy "v.mp4" true 10 (-4) moviepyAllGood = [] ∧
    split_video_ffmpeg "v.mp4" (some 10) 0 oracleAllGood =
      Except.error PyError.zeroDivisionError :=
  ⟨invalid_inputs_amended.1 "v.mp4" (-5) 10 oracleAllGood (by norm_num) (by norm_num),
    invalid_inputs_amended.2.2.2.1 "v.mp4" true 10 (-4) moviepyAllGood
      (by norm_num) (by norm_num),
    invalid_inputs_amended.2.2.2.2.1 "v.mp4" 10 oracleAllGood (by norm_num)⟩

/-- C2 counterexample: per-segment errors can abort the whole job. On a
3-segment plan, a timeout on segment 2 makes the stream-copy splitter
raise, aborting the job instead of recording a failure and continuing; a
library exception on segment 2 makes the re-encode splitter return the
empty list, discarding the already-successful segment 1 and never reaching
segment 3 (the all-success run shown last produces all three files). -/
theorem per_segment_abort_counterexample :
    split_video_ffmpeg "v.mp4" (some 10) 4 oracleTimeoutAt1 =
      Except.error PyError.timeoutExpired ∧
    split_video_moviepy "v.mp4" true 10 4 moviepyRaiseAt1 = [] ∧
    split_video_moviepy "v.mp4" true 10 4 moviepyAllGood =
      ["v_part_01.mp4", "v_part_02.mp4", "v_part_03.mp4"] := by
  have h3 : num_chunks (10 : ℚ) 4 = 3 := by
    norm_num [num_chunks, Int.ceil_eq_iff]
  refine ⟨?_, ?_, ?_⟩
  · simp only [split_video_ffmpeg]
    rw [if_neg (by norm_num), if_neg (by norm_num), h3]
    exact ffmpegLoop_error_of_timeout _ _ _ ⟨1, by decide, rfl⟩
  · simp only [split_video_moviepy]
    rw [if_neg (by decide), if_neg (by norm_num), h3]
    rw [moviepyLoop_none_of_raise _ _ _ ⟨1, by decide, rfl⟩]
  · simp only [split_video_moviepy]
    rw [if_neg (by decide), if_neg (by norm_num), h3]
    rw [moviepyLoop_some_of_no_raise _ _ _ (by intro j hj; simp [moviepyAllGood])]
    decide

/-- C2 amended: under the stream-copy strategy a non-zero tool exit or a
missing output file is recorded as that segment's failure (the path is
skipped) and processing continues through every remaining segment; but a
per-segment timeout aborts the whole job with an uncaught exception. Under
the re-encode strategy a library exception on any segment aborts the whole
job, returning the empty list; only when no segment raises does it record
exactly the segments whose output file exists. -/
theorem split_failure_tolerance_amended :
    (∀ (path : String) (d c : ℚ) (o : ℕ → FfmpegSegOutcome), 0 < d → 0 < c →
      (∀ i, o i ≠ FfmpegSegOutcome.timeoutExpired) →
      split_video_ffmpeg path (some d) c o =
        Except.ok ((List.range (num_chunks d c).toNat).filterMap
          (ffmpegKeep (pathlibStem path) o))) ∧
    (∀ (path : String) (d c : ℚ) (o : ℕ → FfmpegSegOutcome) (i : ℕ),
      0 < d → 0 < c → i < (num_chunks d c).toNat →
      o i = FfmpegSegOutcome.timeoutExpired →
      split_video_ffmpeg path (some d) c o =
        Except.error PyError.timeoutExpired) ∧
    (∀ (path : String) (d c : ℚ) (o : ℕ → MoviepySegOutcome), 0 < c →
      (∀ i, o i ≠ MoviepySegOutcome.raises) →
      split_video_moviepy path true d c o =
        (List.range (num_chunks d c).toNat).filterMap
          (moviepyKeep (pathlibStem path) o)) ∧
    (∀ (path : String) (d c : ℚ) (o : ℕ → MoviepySegOutcome) (i : ℕ),
      0 < c → i < (num_chunks d c).toNat → o i = MoviepySegOutcome.raises →
      split_video_moviepy path true d c o = []) := by
  refine ⟨?_, ?_, ?_, ?_⟩
  · intro path d c o hd hc hno
    simp only [split_video_ffmpeg]
    rw [if_neg (ne_of_gt hd), if_neg (ne_of_gt hc)]
    exact ffmpegLoop_ok_of_no_timeout _ _ _ (fun i _ => hno i)
  · intro path d c o i hd hc hi hoi
    simp only [split_video_ffmpeg]
    rw [if_neg (ne_of_gt hd), if_neg (ne_of_gt hc)]
    exact ffmpegLoop_error_of_timeout _ _ _ ⟨i, List.mem_range.mpr hi, hoi⟩
  · intro path d c o hc hno
    simp only [split_video_moviepy]
    rw [if_neg (by decide), if_neg (ne_of_gt hc)]
    rw [moviepyLoop_some_of_no_raise _ _ _ (fun i _ => hno i)]
  · intro path d c o i hc hi hoi
    simp only [split_video_moviepy]
    rw [if_neg (by decide), if_neg (ne_of_gt hc)]
    rw [moviepyLoop_none_of_raise _ _ _ ⟨i, List.mem_range.mpr hi, hoi⟩]

/-- C2 amended witness: on the 3-segment plan, an exit code 1 on segment 2
under stream-copy skips only that segment (segments 1 and 3 are produced),
while a library raise on segment 2 under re-encode returns nothing. -/
theorem split_failure_tolerance_witness :
    split_video_ffmpeg "video.mp4" (some 10) 4 oracleFailAt1 =
      Except.ok ["video_part_01.mp4", "video_part_03.mp4"] ∧
    split_video_moviepy "video.mp4" true 10 4 moviepyRaiseAt1 = [] := by
  have h3 : num_chunks (10 : ℚ) 4 = 3 := by
    norm_num [num_chunks, Int.ceil_eq_iff]
  constructor
  · have h := split_failure_tolerance_amended.1 "video.mp4" 10 4 oracleFailAt1
      (by norm_num) (by norm_num)
      (by intro i; simp only [oracleFailAt1]; split <;> simp)
    rw [h, h3]
    exact congrArg Except.ok (by decide)
  · exact split_failure_tolerance_amended.2.2.2 "video.mp4" 10 4 moviepyRaiseAt1 1
      (by norm_num) (by rw [h3]; decide) rfl

/-- C7: under both strategies, a path appears in the returned list only if
the per-segment postcondition held: for stream-copy the tool exited 0 and
the output file existed, for re-encode the output file existed after the
write; so the returned list names no file that was not verified to exist. -/
theorem success_requires_output_exists :
    (∀ (path : String) (dOpt : Option ℚ) (c : ℚ) (o : ℕ → FfmpegSegOutcome)
      (l : List String), split_video_ffmpeg path dOpt c o = Except.ok l →
      ∀ p ∈ l, ∃ i, o i = FfmpegSegOutcome.completes 0 true ∧
        p = chunkName (pathlibStem path) i) ∧
    (∀ (path : String) (imp : Bool) (d c : ℚ) (o : ℕ → MoviepySegOutcome),
      ∀ p ∈ split_video_moviepy path imp d c o,
        ∃ i, o i = MoviepySegOutcome.writes true ∧
          p = chunkName (pathlibStem path) i) :=
  ⟨fun path dOpt c o l h => split_video_ffmpeg_ok_mem path dOpt c o l h,
    fun path imp d c o => split_video_moviepy_mem path imp d c o⟩

/-- C7 witness: the single recorded path of a concrete run comes from a
segment whose invocation succeeded with an existing output file. -/
theorem success_requires_output_exists_witness :
    ∃ i, oracleAllGood i = FfmpegSegOutcome.completes 0 true ∧
      "video_part_01.mp4" = chunkName (pathlibStem "video.mp4") i := by
  have h1 : num_chunks (10 : ℚ) 20 = 1 := by
    norm_num [num_chunks, Int.ceil_eq_iff]
  have heq : split_video_ffmpeg "video.mp4" (some 10) 20 oracleAllGood =
      Except.ok ["video_part_01.mp4"] := by
    simp only [split_video_ffmpeg]
    rw [if_neg (by norm_num), if_neg (by norm_num), h1]
    rfl
  exact success_requires_output_exists.1 "video.mp4" (some 10) 20 oracleAllGood
    ["video_part_01.mp4"] heq "video_part_01.mp4" (by simp)

/-- C8 counterexample: a source file named video.mkv yields the output
name video_part_01.mp4 — the hardcoded mp4 extension — not
video_part_01.mkv with the original container extension. -/
theorem output_extension_counterexample :
    split_video_ffmpeg "video.mkv" (some 10) 20 oracleAllGood =
      Except.ok ["video_part_01.mp4"] ∧
    pathlibStem "video.mkv" = "video" ∧
    "video_part_01.mp4" ≠ "video_part_01.mkv" := by
  have h1 : num_chunks (10 : ℚ) 20 = 1 := by
    norm_num [num_chunks, Int.ceil_eq_iff]
  refine ⟨?_, by decide, by decide⟩
  simp only [split_video_ffmpeg]
  rw [if_neg (by norm_num), if_neg (by norm_num), h1]
  rfl

/-- C8 amended: every output artifact of either strategy is named
stem_part_NN.mp4 — the original stem, a 1-based index NN zero-padded to at
least two digits, and always the mp4 extension regardless of the original
container extension. -/
theorem output_naming_amended :
    (∀ (path : String) (dOpt : Option ℚ) (c : ℚ) (o : ℕ → FfmpegSegOutcome)
      (l : List String), split_video_ffmpeg path dOpt c o = Except.ok l →
      ∀ p ∈ l, ∃ i,
        p = pathlibStem path ++ "_part_" ++ pyFormat02 (i + 1) ++ ".mp4" ∧
        2 ≤ (pyFormat02 (i + 1)).length) ∧
    (∀ (path : String) (imp : Bool) (d c : ℚ) (o : ℕ → MoviepySegOutcome),
      ∀ p ∈ split_video_moviepy path imp d c o,
        ∃ i,
          p = pathlibStem path ++ "_part_" ++ pyFormat02 (i + 1) ++ ".mp4" ∧
          2 ≤ (pyFormat02 (i + 1)).length) := by
  constructor
  · intro path dOpt c o l h p hp
    obtain ⟨i, _, hpi⟩ := split_video_ffmpeg_ok_mem path dOpt c o l h p hp
    exact ⟨i, hpi, two_le_pyFormat02_length _⟩
  · intro path imp d c o p hp
    obtain ⟨i, _, hpi⟩ := split_video_moviepy_mem path imp d c o p hp
    exact ⟨i, hpi, two_le_pyFormat02_length _⟩

/-- C8 amended witness: the concrete mkv run yields a name of the
stem_part_NN.mp4 shape with a two-digit index. -/
theorem output_naming_witness :
    ∃ i, "video_part_01.mp4" =
      pathlibStem "video.mkv" ++ "_part_" ++ pyFormat02 (i + 1) ++ ".mp4" ∧
      2 ≤ (pyFormat02 (i + 1)).length := by
  have h1 : num_chunks (10 : ℚ) 20 = 1 := by
    norm_num [num_chunks, Int.ceil_eq_iff]
  have heq : split_video_ffmpeg "video.mkv" (some 10) 20 oracleAllGood =
      Except.ok ["video_part_01.mp4"] := by
    simp only [split_video_ffmpeg]
    rw [if_neg (by norm_num), if_neg (by norm_num), h1]
    rfl
  exact output_naming_amended.1 "video.mkv" (some 10) 20 oracleAllGood
    ["video_part_01.mp4"] heq "video_part_01.mp4" (by simp)

end VideoSplitter
